import Mathlib

/-!
Verification of the pooled-connection / TTL-cache / reconciliation pattern of
the dopamine bot repository.  Python source functions are shallowly embedded
as executable Lean definitions: SQLite transactions guarded by BEGIN IMMEDIATE
become single atomic steps of explicit state machines, wall-clock times become
exact rationals, and fallible operations return `Except` / `Option`.
-/

namespace Dopamine

/-- Wall-clock instants (Python `time.time()` floats) are modelled as exact
rationals. -/
abbrev PyTime := ℚ

/-! ### TTL-cache eviction (src/cogs/alerts.py)

`Alerts._cleanup_ttl_cache` inspects the runtime shape of the first cached
value: when values are `(value, expiry)` tuples it builds
`to_delete = [k for k, (_, expiry) in cache.items()]` — a comprehension with
no `expiry <= now` filter, so every key is deleted; when values are bare
expiries it filters with `expiry <= now`.  Python dicts are modelled as
association lists with distinct keys. -/

/-- Embedding of `Alerts._cleanup_ttl_cache` for a cache whose values are
`(value, expiry)` tuples (the tuple branch of the `isinstance` test).  The
list of keys to delete is built without any expiry comparison, exactly as in
the source.  The time type is any linear order (wall-clock floats are exact
reals; the claims never need fractional instants). -/
def cleanup_ttl_cache_tuple {τ : Type} [LinearOrder τ]
    (cache : List (Nat × Nat × τ)) (now : τ) : List (Nat × Nat × τ) :=
  if cache = [] then cache
  else
    let toDelete := cache.map (fun kv => kv.1)
    cache.filter (fun kv => !(toDelete.contains kv.1))

/-- Embedding of `Alerts._cleanup_ttl_cache` for a cache whose values are bare
expiry timestamps (the scalar branch): only entries with `expiry <= now` are
deleted. -/
def cleanup_ttl_cache_scalar {τ : Type} [LinearOrder τ]
    (cache : List (Nat × τ)) (now : τ) : List (Nat × τ) :=
  if cache = [] then cache
  else
    let toDelete := (cache.filter (fun kv => decide (kv.2 ≤ now))).map (fun kv => kv.1)
    cache.filter (fun kv => !(toDelete.contains kv.1))

/-- Embedding of `Alerts._cleanup_position_cache`: values are
`(position, expiry)` tuples and only entries with `expiry <= now` are
deleted.  The singleton current alert is fixed, so keys are bare user ids. -/
def cleanup_position_cache {τ : Type} [LinearOrder τ]
    (cache : List (Nat × Nat × τ)) (now : τ) : List (Nat × Nat × τ) :=
  if cache = [] then cache
  else
    let toDelete := (cache.filter (fun kv => decide (kv.2.2 ≤ now))).map (fun kv => kv.1)
    cache.filter (fun kv => !(toDelete.contains kv.1))

/-! ### Connection-open retry loops (src/cogs/alerts.py, src/cogs/sticky_messages.py)

The failure oracle `f : Nat -> Bool` says whether the open attempt with the
given 0-based index raises.  `Alerts._create_pooled_connection` retries up to
5 times sleeping `0.1 * 2 ** attempt` seconds after each failed attempt except
the last, on which it re-raises.  `AioSqlitePool.init` in sticky_messages.py
opens each of its `size` connections with a single attempt and no retry. -/

/-- The retry loop of `Alerts._create_pooled_connection`.  The fuel argument
counts the remaining iterations of `for attempt in range(5)`.  On success the
result records the number of attempts made and the sleeps performed; on
exhaustion the error records the sleeps performed. -/
def retryOpen (f : Nat → Bool) : Nat → Nat → List PyTime →
    Except (List PyTime) (Nat × List PyTime)
  | 0, _, sleeps => Except.error sleeps
  | fuel + 1, attempt, sleeps =>
    if f attempt then
      if attempt + 1 < 5 then
        retryOpen f fuel (attempt + 1) (sleeps ++ [(1 / 10 : PyTime) * 2 ^ attempt])
      else Except.error sleeps
    else Except.ok (attempt + 1, sleeps)

/-- Embedding of `Alerts._create_pooled_connection` (`max_retries = 5`). -/
def create_pooled_connection (f : Nat → Bool) :
    Except (List PyTime) (Nat × List PyTime) :=
  retryOpen f 5 0 []

/-- Embedding of `AioSqlitePool.init` from sticky_messages.py: open `size`
connections in sequence, one single attempt each; a failure propagates
immediately.  On error the payload is the total number of open attempts made;
on success it is the number of connections opened. -/
def aioPoolInitGo (f : Nat → Bool) : Nat → Nat → Except Nat Nat
  | 0, opened => Except.ok opened
  | n + 1, opened =>
    if f opened then Except.error (opened + 1)
    else aioPoolInitGo f n (opened + 1)

/-- Entry point of the sticky-messages pool start-up. -/
def aio_pool_init (f : Nat → Bool) (size : Nat) : Except Nat Nat :=
  aioPoolInitGo f size 0

/-! ### Frequency parsing (src/cogs/scheduled_messages.py)

`ScheduledMessages.parse_frequency` lower-cases and strips the input, scans it
with `re.findall` for the pattern `(\d+(?:\.\d+)?)\s*([a-zA-Z]+)`, sums
`number * units[unit]` over the matched pairs (returning `None` on an unknown
unit), and returns `int(total_seconds)` when the total is positive, else
`None`.  Python floats are embedded as exact rationals; `int()` of a positive
value truncates, i.e. takes the floor. -/

/-- Characters matched by the regex class `\d` on an ASCII input. -/
def isDigitCh (c : Char) : Bool := '0' ≤ c && c ≤ '9'

/-- Characters matched by the regex class `[a-zA-Z]`. -/
def isAlphaCh (c : Char) : Bool := ('a' ≤ c && c ≤ 'z') || ('A' ≤ c && c ≤ 'Z')

/-- Whitespace characters for `\s` and `str.strip()` (ASCII whitespace). -/
def isSpaceCh (c : Char) : Bool :=
  c = ' ' || c = '\t' || c = '\n' || c = '\x0b' || c = '\x0c' || c = '\r'

/-- `str.lower()` on one ASCII character. -/
def pyLower (c : Char) : Char :=
  if 'A' ≤ c ∧ c ≤ 'Z' then Char.ofNat (c.toNat + 32) else c

/-- `str.strip()` on a character list. -/
def pyStripChars (cs : List Char) : List Char :=
  ((cs.dropWhile (fun c => isSpaceCh c)).reverse.dropWhile (fun c => isSpaceCh c)).reverse

/-- `str.strip()`. -/
def pyStrip (s : String) : String := String.mk (pyStripChars s.data)

/-- Numeric value of a digit string. -/
def digitsToNat (ds : List Char) : Nat :=
  ds.foldl (fun acc d => acc * 10 + (d.toNat - ('0').toNat)) 0

/-- Value of `float(number_str)` where the integer digits and the optional
fractional digits were captured by the regex group `\d+(?:\.\d+)?`.  The exact
rational value `i + f / 10^k` is represented as the unreduced fraction
`(i * 10^k + f, 10^k)` so that all arithmetic stays in `Nat` and
kernel-reduces. -/
def numValue (intDs fracDs : List Char) : Nat × Nat :=
  (digitsToNat intDs * 10 ^ fracDs.length + digitsToNat fracDs, 10 ^ fracDs.length)

/-- The exact rational value of an unreduced fraction. -/
def fracVal (p : Nat × Nat) : ℚ := (p.1 : ℚ) / (p.2 : ℚ)

/-- Attempt to match `(\d+(?:\.\d+)?)\s*([a-zA-Z]+)` anchored at the head of
`cs`.  On success, returns the integer digits, fractional digits and unit
letters of the match together with the remaining input.  When the greedy
attempt including the fractional group fails to find letters, regex
backtracking drops the fractional group, but the remaining input then starts
with a dot, where `[a-zA-Z]+` cannot match either — so no fallback match is
possible, exactly as encoded here. -/
def matchNumberUnit (cs : List Char) :
    Option ((List Char × List Char × List Char) × List Char) :=
  let ds := cs.takeWhile (fun c => isDigitCh c)
  if ds = [] then none
  else
    let r1 := cs.dropWhile (fun c => isDigitCh c)
    let fr : Option (List Char × List Char) :=
      match r1 with
      | '.' :: r =>
        let fs := r.takeWhile (fun c => isDigitCh c)
        if fs = [] then none else some (fs, r.dropWhile (fun c => isDigitCh c))
      | _ => none
    match fr with
    | some (fs, r2) =>
      let r3 := r2.dropWhile (fun c => isSpaceCh c)
      let us := r3.takeWhile (fun c => isAlphaCh c)
      if us = [] then none
      else some ((ds, fs, us), r3.dropWhile (fun c => isAlphaCh c))
    | none =>
      let r3 := r1.dropWhile (fun c => isSpaceCh c)
      let us := r3.takeWhile (fun c => isAlphaCh c)
      if us = [] then none
      else some ((ds, [], us), r3.dropWhile (fun c => isAlphaCh c))

/-- `re.findall` for the frequency pattern: scan left to right, emitting
non-overlapping matches, advancing one character on failure.  The fuel is
instantiated with the input length; every match consumes at least one
character, so the fuel never runs out on the real entry point. -/
def findNumberUnitPairs : Nat → List Char → List (List Char × List Char × List Char)
  | 0, _ => []
  | _, [] => []
  | fuel + 1, c :: cs =>
    match matchNumberUnit (c :: cs) with
    | some (m, rest) => m :: findNumberUnitPairs fuel rest
    | none => findNumberUnitPairs fuel cs

/-- The `units` table of `parse_frequency`. -/
def unitTable : List (String × Nat) :=
  [ ("s", 1), ("sec", 1), ("second", 1), ("seconds", 1),
    ("m", 60), ("min", 60), ("minute", 60), ("minutes", 60),
    ("hr", 3600), ("hour", 3600), ("hours", 3600),
    ("d", 86400), ("day", 86400), ("days", 86400),
    ("w", 604800), ("week", 604800), ("weeks", 604800),
    ("mon", 2629746), ("month", 2629746), ("months", 2629746),
    ("y", 31556952), ("year", 31556952), ("years", 31556952) ]

/-- The summation loop over matched `(number, unit)` pairs; `none` when a unit
is not in the table (the source returns `None` from inside the loop).  The
running total `number * units[unit] + ...` is an exact rational kept as an
unreduced fraction: `a/b * m + n/d = (a*m*d + n*b) / (b*d)`. -/
def sumMatches : List (List Char × List Char × List Char) → Option (Nat × Nat)
  | [] => some (0, 1)
  | (ids, fds, us) :: rest =>
    match unitTable.lookup (String.mk us) with
    | some mult =>
      match sumMatches rest with
      | some t =>
        let v := numValue ids fds
        some (v.1 * mult * t.2 + t.1 * v.2, v.2 * t.2)
      | none => none
    | none => none

/-- The lower-cased, stripped character form of a frequency string. -/
def freqChars (s : String) : List Char := pyStripChars (s.data.map pyLower)

/-- The matches `re.findall` produces for a frequency string. -/
def freqMatches (s : String) : List (List Char × List Char × List Char) :=
  findNumberUnitPairs (freqChars s).length (freqChars s)

/-- Embedding of `ScheduledMessages.parse_frequency`.  The successful result
is `int(total_seconds)` with `total_seconds > 0`, hence a natural number; for
a positive total `num/den`, `int()` truncates toward zero, i.e. divides. -/
def parse_frequency (s : String) : Option Nat :=
  let ms := freqMatches s
  if ms = [] then none
  else
    match sumMatches ms with
    | none => none
    | some total => if 0 < total.1 then some (total.1 / total.2) else none

/-! ### Frequency formatting (src/cogs/scheduled_messages.py)

`ScheduledMessages.format_frequency` returns `"{seconds} second(s)"` for
totals below 60, otherwise walks a fixed unit table from years down to
seconds, emitting `"{count} {unit_name}"` for every unit not larger than the
remainder, and joins the parts with commas and `and`. -/

/-- The fixed unit table of `format_frequency`: seconds per unit with singular
and plural names, ordered year, month, week, day, hour, minute, second. -/
def ffUnits : List (Nat × String × String) :=
  [ (31556952, "year", "years"), (2629746, "month", "months"),
    (604800, "week", "weeks"), (86400, "day", "days"),
    (3600, "hour", "hours"), (60, "minute", "minutes"),
    (1, "second", "seconds") ]

/-- The accumulation loop of `format_frequency`: each emitted part records the
count, the seconds-per-unit, and the rendered unit name. -/
def ffLoop : List (Nat × String × String) → Nat → List (Nat × Nat × String)
  | [], _ => []
  | (u, sg, pl) :: rest, remaining =>
    if u ≤ remaining then
      (remaining / u, u, if remaining / u = 1 then sg else pl) ::
        ffLoop rest (remaining % u)
    else ffLoop rest remaining

/-- The components of the human-readable description: `(count, unit_seconds)`
pairs in emission order.  For totals below 60 the source short-circuits to the
single component `"{seconds} second(s)"`. -/
def formatComponents (seconds : Nat) : List (Nat × Nat) :=
  if seconds < 60 then [(seconds, 1)]
  else (ffLoop ffUnits seconds).map (fun p => (p.1, p.2.1))

/-- Rendering of one part, `f-string "{count} {unit_name}"`. -/
def ffRenderPart (p : Nat × Nat × String) : String :=
  toString p.1 ++ (" ") ++ p.2.2

/-- Embedding of `ScheduledMessages.format_frequency`. -/
def format_frequency (seconds : Nat) : String :=
  if seconds < 60 then
    toString seconds ++ (" second") ++ (if seconds ≠ 1 then ("s") else (""))
  else
    let parts := (ffLoop ffUnits seconds).map ffRenderPart
    match parts.reverse with
    | [] => toString seconds ++ (" second") ++ (if seconds ≠ 1 then ("s") else (""))
    | [a] => a
    | [b, a] => a ++ (" and ") ++ b
    | last :: revInit =>
      String.intercalate (", ") revInit.reverse ++ (", and ") ++ last

/-! ### The scheduled-message setup policy layer (src/cogs/scheduled_messages.py)

`ScheduledMessageSetupModal.on_submit` parses the frequency, reports an error
and returns with no database access when parsing fails or the total is below
60 seconds, and otherwise allocates a message id and inserts an active row
with `next_send_time = now + frequency_seconds`. -/

/-- A scheduled_messages row as inserted by the setup modal. -/
structure ScheduledRow where
  guild_id : Nat
  message_id : Nat
  frequency_seconds : Nat
  next_send_time : PyTime
  is_active : Bool
  started_at : PyTime
  deriving DecidableEq, Repr

/-- Outcome of `ScheduledMessageSetupModal.on_submit`.  The two rejection
outcomes occur before any id allocation or INSERT, so they carry no row. -/
inductive SubmitOutcome
  | invalidFrequency
  | tooShort
  | created (row : ScheduledRow)
  deriving DecidableEq, Repr

/-- Embedding of the control flow of `ScheduledMessageSetupModal.on_submit`,
parameterised by the allocated message id and the current time. -/
def onSubmitScheduled (freqStr : String) (guild message_id : Nat) (now : PyTime) :
    SubmitOutcome :=
  match parse_frequency freqStr with
  | none => SubmitOutcome.invalidFrequency
  | some f =>
    if f < 60 then SubmitOutcome.tooShort
    else SubmitOutcome.created
      { guild_id := guild, message_id := message_id, frequency_seconds := f,
        next_send_time := now + (f : PyTime), is_active := true, started_at := now }

/-! ### The scheduled-message send loop (src/cogs/scheduled_messages.py)

`ScheduledMessages.send_scheduled_messages` runs every 60 seconds; for each
active row with `next_send_time <= current_time` it sends the content once and
sets `next_send_time = current_time + frequency_seconds`.  The per-row effect
of one loop iteration is embedded below; times are exact rationals. -/

/-- The scheduling fields of one scheduled_messages row. -/
structure SMRow where
  frequency_seconds : Nat
  next_send_time : ℚ
  is_active : Bool
  deriving DecidableEq, Repr

/-- Effect of one iteration of the send loop on one row, at wall-clock time
`current_time`: the returned number counts the sends performed (0 or 1). -/
def smTick (row : SMRow) (current_time : ℚ) : SMRow × Nat :=
  if row.is_active = true ∧ row.next_send_time ≤ current_time then
    ({ row with next_send_time := current_time + (row.frequency_seconds : ℚ) }, 1)
  else (row, 0)

/-- Iterated loop passes at the given wall-clock times, accumulating the total
number of sends. -/
def smRun (row : SMRow) (ticks : List ℚ) : SMRow × Nat :=
  ticks.foldl (fun acc t => ((smTick acc.1 t).1, acc.2 + (smTick acc.1 t).2)) (row, 0)

/-! ### Sticky-message repair (src/cogs/sticky_messages.py)

`StickyMessages.update_sticky_message(panel_row, channel)` deletes the panel's
previous message if it still exists (a missing message raises NotFound, which
is passed over), sends a fresh panel message, writes its id to the database
row and then to the in-memory active-panel cache.  The channel is modelled as
the list of live message ids plus a fresh-id counter; `panel_row` is re-read
from the database before each repair, as both call sites do. -/

/-- The state relevant to one sticky panel and its channel. -/
structure StickyWorld where
  channelMsgs : List Nat
  nextMsgId : Nat
  dbLast : Option Nat
  cacheLast : Option Nat
  deriving DecidableEq, Repr

/-- Embedding of one invocation of `update_sticky_message` on the panel's
current database row. -/
def update_sticky_message (w : StickyWorld) : StickyWorld :=
  let w1 :=
    match w.dbLast with
    | some m =>
      if m ∈ w.channelMsgs then { w with channelMsgs := w.channelMsgs.erase m }
      else w
    | none => w
  let newId := w1.nextMsgId
  { channelMsgs := w1.channelMsgs ++ [newId]
    nextMsgId := newId + 1
    dbLast := some newId
    cacheLast := some newId }

/-! ### Push-alert submission (src/cogs/alerts.py)

`PushAlertModal.on_submit` strips the inputs, reports a validation error
without touching the database when either is empty, and otherwise runs a
BEGIN IMMEDIATE transaction that deletes all read receipts, deletes all
alerts, and inserts the new alert with read_count 0; any raising statement
triggers ROLLBACK, which restores the state at transaction start. -/

/-- An alerts-table row. -/
structure AlertRow where
  id : Nat
  title : String
  description : String
  created_at : Nat
  read_count : Nat
  deriving DecidableEq, Repr

/-- The two tables of the alerts database; `nextAlertId` models the
AUTOINCREMENT sequence.  alert_reads rows are (alert_id, user_id, position). -/
structure AlertDB where
  nextAlertId : Nat
  alerts : List AlertRow
  alert_reads : List (Nat × Nat × Nat)
  deriving DecidableEq, Repr

/-- Observable outcome of the modal submission; each constructor carries the
resulting database state. -/
inductive PushOutcome
  | validationError (db : AlertDB)
  | pushed (db : AlertDB)
  | failed (db : AlertDB)
  deriving DecidableEq, Repr

/-- The three statements of the push-alert transaction, in program order. -/
def pushAlertTxnStatements (title description : String) (now : Nat) :
    List (AlertDB → AlertDB) :=
  [ fun s => { s with alert_reads := [] },
    fun s => { s with alerts := [] },
    fun s =>
      { s with
        alerts := s.alerts ++
          [{ id := s.nextAlertId, title := title, description := description,
             created_at := now, read_count := 0 }],
        nextAlertId := s.nextAlertId + 1 } ]

/-- The BEGIN IMMEDIATE transaction of `on_submit`.  `failAt = some i` makes
statement `i` raise; the except-branch issues ROLLBACK, restoring the
pre-transaction state. -/
def runPushAlertTxn (db : AlertDB) (title description : String) (now : Nat)
    (failAt : Option Nat) : Except AlertDB AlertDB :=
  let sts := pushAlertTxnStatements title description now
  match failAt with
  | some i =>
    if i < sts.length then Except.error db
    else Except.ok (sts.foldl (fun s f => f s) db)
  | none => Except.ok (sts.foldl (fun s f => f s) db)

/-- Embedding of `PushAlertModal.on_submit`. -/
def pushAlertOnSubmit (db : AlertDB) (titleRaw descRaw : String) (now : Nat)
    (failAt : Option Nat) : PushOutcome :=
  let title := pyStrip titleRaw
  let description := pyStrip descRaw
  if title = ("") ∨ description = ("") then PushOutcome.validationError db
  else
    match runPushAlertTxn db title description now failAt with
    | Except.error prev => PushOutcome.failed prev
    | Except.ok db2 => PushOutcome.pushed db2

/-! ### The per-guild message-id counter (src/cogs/scheduled_messages.py)

`ScheduledMessages.get_next_message_id` reads `_max_message_id_cache`; on a
fresh entry it uses the cached value, otherwise it awaits a pooled connection
and reads `MAX(message_id)` from the database (no lock and no transaction
guards the read), and after further awaits computes `next_id = max_id + 1`,
caches it and returns it.  An invocation is therefore three atomic segments
separated by suspension points; concurrent invocations for the same guild
interleave these segments arbitrarily.  The guild is fixed; timestamps are
integers. -/

/-- Program counter of one `get_next_message_id` invocation. -/
inductive GNPc
  | queryCache
  | queryDb
  | finishTail
  | finished
  deriving DecidableEq, Repr

/-- One invocation: its program counter, the local `max_id` once read, and
the returned id once finished. -/
structure GNTask where
  pc : GNPc
  maxId : Nat
  ret : Option Nat
  deriving DecidableEq, Repr

/-- Shared state: the guild's scheduled_messages ids and
`_max_message_id_cache[guild_id]`. -/
structure GNState where
  table : List Nat
  cache : Option (Nat × Nat)
  deriving DecidableEq, Repr

/-- One atomic segment of invocation `i`, at wall-clock time `now`.  A cache
hit runs the whole tail synchronously; a miss suspends before and after the
database read of `MAX(message_id)`. -/
def gnStep (cfg : GNState × List GNTask) (i : Nat) (now : Nat) :
    GNState × List GNTask :=
  let s := cfg.1
  let ts := cfg.2
  match ts.get? i with
  | none => cfg
  | some t =>
    match t.pc with
    | .queryCache =>
      match s.cache with
      | some (m, stamp) =>
        if now - stamp < 30 * 60 then
          ({ s with cache := some (m + 1, now) },
           ts.set i { t with pc := .finished, ret := some (m + 1) })
        else (s, ts.set i { t with pc := .queryDb })
      | none => (s, ts.set i { t with pc := .queryDb })
    | .queryDb =>
      (s, ts.set i { t with pc := .finishTail, maxId := s.table.foldr Nat.max 0 })
    | .finishTail =>
      ({ s with cache := some (t.maxId + 1, now) },
       ts.set i { t with pc := .finished, ret := some (t.maxId + 1) })
    | .finished => cfg

/-- Run a schedule of (invocation index, time) pairs. -/
def gnRun (s : GNState) (ts : List GNTask) (sched : List (Nat × Nat)) :
    GNState × List GNTask :=
  sched.foldl (fun cfg st => gnStep cfg st.1 st.2) (s, ts)

/-! ### Pool acquire/release of scheduled_messages (src/cogs/scheduled_messages.py)

`get_db_connection` returns a context manager whose `__aenter__` runs
`async with self._db_pool_lock: while not self._db_pool: await asyncio.sleep(0)`
followed by `pop()`; `asyncio.sleep(0)` yields but does not release the lock.
`__aexit__` appends the connection back under the same lock.  The waiter that
finds the pool empty therefore spins while holding `_db_pool_lock`, and any
holder's release blocks on that lock.  Configurations track the free-list
size, the waiter's program counter (which encodes lock ownership: the lock is
held exactly while the waiter spins), and whether one pending release has
completed. -/

/-- Program counter of a waiter inside `__aenter__`. -/
inductive WaiterPc
  | wAcquire
  | wSpin
  | wDone
  deriving DecidableEq, Repr

/-- A configuration with one waiting acquirer and one pending release. -/
structure RelCfg where
  pool : Nat
  waiter : WaiterPc
  releaseDone : Bool
  deriving DecidableEq, Repr

/-- One cooperative step: `true` schedules the waiter, `false` schedules the
holder's `__aexit__`. -/
def relStep (c : RelCfg) (scheduleWaiter : Bool) : RelCfg :=
  if scheduleWaiter then
    match c.waiter with
    | .wAcquire => { c with waiter := .wSpin }
    | .wSpin =>
      if c.pool = 0 then c
      else { c with pool := c.pool - 1, waiter := .wDone }
    | .wDone => c
  else
    if c.releaseDone then c
    else
      match c.waiter with
      | .wSpin => c
      | _ => { c with pool := c.pool + 1, releaseDone := true }

/-- Run a schedule of cooperative steps. -/
def relRun (c : RelCfg) (sched : List Bool) : RelCfg :=
  sched.foldl relStep c

/-! ### The alert read-position transaction (src/cogs/alerts.py)

`Alerts.alert` cleans the position cache and checks it synchronously; on a
miss it acquires a pooled connection (a suspension point) and runs a
BEGIN IMMEDIATE transaction that selects the user's existing receipt, or
else increments read_count, reads it back as the position and inserts the
receipt; after commit (another suspension point) it writes the position to
the cache with a 300s TTL computed from the invocation's start time.
BEGIN IMMEDIATE serialises the transactions of concurrent invocations, so a
transaction is one atomic step; the cache check and the cache write are the
other two.  The current alert is fixed (its singleton row always exists);
timestamps are integers. -/

/-- Program counter of one `/alert` invocation. -/
inductive APc
  | start
  | inTxn
  | writeCache (pos : Nat)
  | done (pos : Nat)
  deriving DecidableEq, Repr

/-- One invocation: the invoking user, the program counter, and the `now`
captured when the invocation started. -/
structure ATask where
  user : Nat
  pc : APc
  tnow : Nat
  deriving DecidableEq, Repr

/-- Shared state: the alert's read_count, the alert_reads rows
(user_id, position) in insertion order, and the position cache
user_id -> (position, expiry). -/
structure AState where
  readCount : Nat
  reads : List (Nat × Nat)
  cache : List (Nat × Nat × Nat)
  deriving DecidableEq, Repr

/-- One atomic segment of invocation `i`, at wall-clock time `now`. -/
def astep (cfg : AState × List ATask) (i : Nat) (now : Nat) :
    AState × List ATask :=
  let s := cfg.1
  let ts := cfg.2
  match ts.get? i with
  | none => cfg
  | some t =>
    match t.pc with
    | .start =>
      let cache' := cleanup_position_cache s.cache now
      match cache'.find? (fun e => e.1 == t.user) with
      | some e =>
        ({ s with cache := cache' },
         ts.set i { t with pc := .done e.2.1, tnow := now })
      | none =>
        ({ s with cache := cache' },
         ts.set i { t with pc := .inTxn, tnow := now })
    | .inTxn =>
      match s.reads.find? (fun r => r.1 == t.user) with
      | some r => (s, ts.set i { t with pc := .writeCache r.2 })
      | none =>
        let rc := s.readCount + 1
        ({ readCount := rc, reads := s.reads ++ [(t.user, rc)], cache := s.cache },
         ts.set i { t with pc := .writeCache rc })
    | .writeCache p =>
      ({ s with cache :=
          (t.user, p, t.tnow + 300) :: s.cache.filter (fun e => !(e.1 == t.user)) },
       ts.set i { t with pc := .done p })
    | .done _ => cfg

/-- Run any interleaving of `/alert` invocations by the given users, starting
from a fresh alert (no receipts, empty cache). -/
def arun (users : List Nat) (sched : List (Nat × Nat)) : AState × List ATask :=
  sched.foldl (fun cfg st => astep cfg st.1 st.2)
    ({ readCount := 0, reads := [], cache := [] },
     users.map (fun u => { user := u, pc := .start, tnow := 0 }))

/-- The inductive invariant of the alert read-position machine. -/
def AInv (cfg : AState × List ATask) : Prop :=
  cfg.1.readCount = cfg.1.reads.length ∧
  (cfg.1.reads.map Prod.fst).Nodup ∧
  cfg.1.reads.map Prod.snd = List.range' 1 cfg.1.reads.length ∧
  (∀ e ∈ cfg.1.cache, (e.1, e.2.1) ∈ cfg.1.reads) ∧
  (∀ t ∈ cfg.2, ∀ p : Nat,
    t.pc = APc.writeCache p ∨ t.pc = APc.done p → (t.user, p) ∈ cfg.1.reads)

/-- The remainder left over after the accumulation loop of `format_frequency`
has consumed a unit list. -/
def ffRem : List (Nat × String × String) → Nat → Nat
  | [], remaining => remaining
  | (u, _, _) :: rest, remaining =>
    if u ≤ remaining then ffRem rest (remaining % u) else ffRem rest remaining

/-- The parts emitted by the loop plus the final remainder add up to the
input. -/
theorem ffLoop_sum_add_rem (units : List (Nat × String × String)) (r : Nat) :
    ((ffLoop units r).map (fun p => p.1 * p.2.1)).sum + ffRem units r = r := by
  induction units generalizing r with
  | nil => simp [ffLoop, ffRem]
  | cons hd tl ih =>
    obtain ⟨u, sg, pl⟩ := hd
    by_cases h : u ≤ r
    · simp only [ffLoop, ffRem, if_pos h, List.map_cons, List.sum_cons]
      rw [Nat.add_assoc, ih (r % u), Nat.mul_comm, Nat.div_add_mod]
    · simp only [ffLoop, ffRem, if_neg h]
      exact ih r

/-- The loop remainder over a concatenation of unit tables. -/
theorem ffRem_append (xs ys : List (Nat × String × String)) (r : Nat) :
    ffRem (xs ++ ys) r = ffRem ys (ffRem xs r) := by
  induction xs generalizing r with
  | nil => rfl
  | cons hd tl ih =>
    obtain ⟨u, sg, pl⟩ := hd
    by_cases h : u ≤ r <;> simp [ffRem, h, ih]

/-- With the concrete unit table, whose last unit is one second, the final
remainder is always zero. -/
theorem ffRem_ffUnits (r : Nat) : ffRem ffUnits r = 0 := by
  have hsplit : ffUnits =
      [ (31556952, "year", "years"), (2629746, "month", "months"),
        (604800, "week", "weeks"), (86400, "day", "days"),
        (3600, "hour", "hours"), (60, "minute", "minutes") ] ++
        [(1, "second", "seconds")] := rfl
  rw [hsplit, ffRem_append]
  generalize ffRem _ r = x
  simp only [ffRem]
  split_ifs with h
  · exact Nat.mod_one x
  · omega

/-- Every part the loop emits has a count of at least one, provided all unit
sizes are positive. -/
theorem ffLoop_counts_pos (units : List (Nat × String × String)) (r : Nat)
    (hu : ∀ p ∈ units, 0 < p.1) :
    ∀ p ∈ ffLoop units r, 1 ≤ p.1 := by
  induction units generalizing r with
  | nil => simp [ffLoop]
  | cons hd tl ih =>
    obtain ⟨u, sg, pl⟩ := hd
    intro p hp
    by_cases h : u ≤ r
    · simp only [ffLoop, if_pos h, List.mem_cons] at hp
      rcases hp with rfl | hp
      · have hupos : 0 < u := hu (u, sg, pl) (List.mem_cons_self _ _)
        exact (Nat.one_le_div_iff hupos).mpr h
      · exact ih (r % u) (fun q hq => hu q (List.mem_cons_of_mem _ hq)) p hp
    · simp only [ffLoop, if_neg h] at hp
      exact ih r (fun q hq => hu q (List.mem_cons_of_mem _ hq)) p hp

/-- The units of the emitted parts appear in unit-table order, with units of
count zero omitted. -/
theorem ffLoop_units_sublist (units : List (Nat × String × String)) (r : Nat) :
    ((ffLoop units r).map (fun p => p.2.1)).Sublist (units.map (fun p => p.1)) := by
  induction units generalizing r with
  | nil => simp [ffLoop]
  | cons hd tl ih =>
    obtain ⟨u, sg, pl⟩ := hd
    by_cases h : u ≤ r
    · simpa [ffLoop, if_pos h] using (ih (r % u)).cons₂ u
    · simpa [ffLoop, if_neg h] using (ih r).cons u

/-- Entries surviving the position-cache cleanup were already present. -/
theorem cleanup_position_cache_subset {τ : Type} [LinearOrder τ]
    (cache : List (Nat × Nat × τ)) (now : τ) :
    ∀ e ∈ cleanup_position_cache cache now, e ∈ cache := by
  intro e he
  unfold cleanup_position_cache at he
  split at he
  · exact he
  · exact (List.mem_filter.mp he).1

/-- In a table with pairwise-distinct keys, a key that occurs matches exactly
one row. -/
theorem filter_key_length_one {l : List (Nat × Nat)}
    (hnd : (l.map Prod.fst).Nodup) {u p : Nat} (hm : (u, p) ∈ l) :
    (l.filter (fun r => r.1 == u)).length = 1 := by
  induction l with
  | nil => cases hm
  | cons hd tl ih =>
    simp only [List.map_cons, List.nodup_cons] at hnd
    rcases List.mem_cons.mp hm with heq | hm'
    · rw [← heq] at hnd ⊢
      have htl : tl.filter (fun r => r.1 == u) = [] := by
        rw [List.filter_eq_nil_iff]
        intro a ha hak
        apply hnd.1
        have hau : a.1 = u := by simpa using hak
        simpa [hau] using List.mem_map_of_mem Prod.fst ha
      rw [List.filter_cons]
      simp [htl]
    · have hne : (hd.1 == u) = false := by
        rw [beq_eq_false_iff_ne]
        intro h
        apply hnd.1
        rw [h]
        exact List.mem_map_of_mem Prod.fst hm'
      rw [List.filter_cons, hne]
      exact ih hnd.2 hm'

/-- C3: the periodic eviction routine is claimed to remove exactly the
entries whose recorded expiry is at or before `now`.  Evaluating
`Alerts._cleanup_ttl_cache` on a tuple-valued cache holding one entry whose
expiry (5) lies strictly after `now` (0) shows the entry is removed anyway:
the tuple branch builds its deletion list without any expiry comparison, so
every entry of a tuple-valued cache is evicted regardless of `now`. -/
theorem cleanup_ttl_cache_drops_unexpired :
    cleanup_ttl_cache_tuple [(1, 42, (5 : ℚ))] 0 = [] ∧ ¬ ((5 : ℚ) ≤ 0) := by
  constructor
  · rfl
  · norm_num

/-- C8 counterexample: `AioSqlitePool.init` of sticky_messages.py opens its
six pooled connections with no retry loop at all, so when the very first open
attempt fails the error propagates after a single attempt, not after five. -/
theorem pool_open_retry_cex :
    aio_pool_init (fun _ => true) 6 = Except.error 1 := by rfl

/-- C8 (amended): in the alerts and scheduled-messages cogs each connection
open is attempted up to 5 times with sleeps of `0.1 * 2 ^ attempt` seconds
after each failed attempt but the last, the error propagating only after the
fifth consecutive failure, and a failure on an earlier attempt never
surfacing; the sticky-messages pool (`AioSqlitePool.init`) instead attempts
each open exactly once and propagates the first failure. -/
theorem pool_open_retry_amended :
    (∀ f : Nat → Bool, (∀ i, i < 5 → f i = true) →
      create_pooled_connection f = Except.error
        [(1 / 10 : ℚ) * 2 ^ 0, (1 / 10 : ℚ) * 2 ^ 1,
         (1 / 10 : ℚ) * 2 ^ 2, (1 / 10 : ℚ) * 2 ^ 3]) ∧
    (∀ f : Nat → Bool, f 0 = false →
      create_pooled_connection f = Except.ok (1, [])) ∧
    (∀ f : Nat → Bool, f 0 = true → f 1 = false →
      create_pooled_connection f = Except.ok (2, [(1 / 10 : ℚ) * 2 ^ 0])) ∧
    (∀ f : Nat → Bool, f 0 = true → f 1 = true → f 2 = false →
      create_pooled_connection f =
        Except.ok (3, [(1 / 10 : ℚ) * 2 ^ 0, (1 / 10 : ℚ) * 2 ^ 1])) ∧
    (∀ f : Nat → Bool, f 0 = true → f 1 = true → f 2 = true → f 3 = false →
      create_pooled_connection f = Except.ok
        (4, [(1 / 10 : ℚ) * 2 ^ 0, (1 / 10 : ℚ) * 2 ^ 1, (1 / 10 : ℚ) * 2 ^ 2])) ∧
    (∀ f : Nat → Bool, f 0 = true → f 1 = true → f 2 = true → f 3 = true →
        f 4 = false →
      create_pooled_connection f = Except.ok
        (5, [(1 / 10 : ℚ) * 2 ^ 0, (1 / 10 : ℚ) * 2 ^ 1,
             (1 / 10 : ℚ) * 2 ^ 2, (1 / 10 : ℚ) * 2 ^ 3])) ∧
    (∀ f : Nat → Bool, ∀ n : Nat, f 0 = true →
      aio_pool_init f (n + 1) = Except.error 1) := by
  refine ⟨?_, ?_, ?_, ?_, ?_, ?_, ?_⟩
  · intro f hf
    simp [create_pooled_connection, retryOpen,
      hf 0 (by norm_num), hf 1 (by norm_num), hf 2 (by norm_num),
      hf 3 (by norm_num), hf 4 (by norm_num)]
  · intro f h0
    simp [create_pooled_connection, retryOpen, h0]
  · intro f h0 h1
    simp [create_pooled_connection, retryOpen, h0, h1]
  · intro f h0 h1 h2
    simp [create_pooled_connection, retryOpen, h0, h1, h2]
  · intro f h0 h1 h2 h3
    simp [create_pooled_connection, retryOpen, h0, h1, h2, h3]
  · intro f h0 h1 h2 h3 h4
    simp [create_pooled_connection, retryOpen, h0, h1, h2, h3, h4]
  · intro f n h0
    simp [aio_pool_init, aioPoolInitGo, h0]

/-- C8 witness: the amended retry behaviour evaluated at concrete failure
patterns. -/
theorem pool_open_retry_amended_witness :
    create_pooled_connection (fun i => decide (i < 2)) =
      Except.ok (3, [(1 / 10 : ℚ) * 2 ^ 0, (1 / 10 : ℚ) * 2 ^ 1]) ∧
    aio_pool_init (fun _ => true) 3 = Except.error 1 := by
  constructor
  · exact pool_open_retry_amended.2.2.2.1 (fun i => decide (i < 2))
      (by decide) (by decide) (by decide)
  · exact pool_open_retry_amended.2.2.2.2.2.2 (fun _ => true) 2 (by decide)

/-- C5: `parse_frequency ("1w 2d 3hr 30m")` is the weighted sum
1*604800 + 2*86400 + 3*3600 + 30*60; `"garbage"` parses to `None`, as does
any input with no matched (number, unit) pair, an unknown unit (a match list
the summation rejects), or a non-positive total; `"30s"` parses to 30, and
the setup modal's policy layer rejects any parsed total below 60 seconds
before allocating an id or inserting a row. -/
theorem parse_frequency_spec :
    parse_frequency ("1w 2d 3hr 30m") =
      some (1 * 604800 + 2 * 86400 + 3 * 3600 + 30 * 60) ∧
    parse_frequency ("garbage") = none ∧
    (∀ s : String, freqMatches s = [] → parse_frequency s = none) ∧
    (∀ s : String, sumMatches (freqMatches s) = none → parse_frequency s = none) ∧
    (∀ s : String, ∀ t : Nat × Nat, sumMatches (freqMatches s) = some t →
      t.1 = 0 → parse_frequency s = none) ∧
    parse_frequency ("30s") = some 30 ∧
    (∀ s : String, ∀ fsec : Nat, parse_frequency s = some fsec → fsec < 60 →
      ∀ guild message_id : Nat, ∀ now : ℚ,
        onSubmitScheduled s guild message_id now = SubmitOutcome.tooShort) := by
  refine ⟨by decide, by decide, ?_, ?_, ?_, by decide, ?_⟩
  · intro s h
    simp [parse_frequency, h]
  · intro s h
    by_cases hm : freqMatches s = []
    · simp [parse_frequency, hm]
    · simp [parse_frequency, hm, h]
  · intro s t h ht
    by_cases hm : freqMatches s = []
    · simp [parse_frequency, hm]
    · simp [parse_frequency, hm, h, ht]
  · intro s fsec hp hf guild message_id now
    simp [onSubmitScheduled, hp, hf]

/-- C5 witness: the general rejection clauses evaluated at concrete inputs. -/
theorem parse_frequency_spec_witness :
    parse_frequency ("xyz") = none ∧
    onSubmitScheduled ("30s") 5 7 0 = SubmitOutcome.tooShort := by
  constructor
  · exact parse_frequency_spec.2.2.1 ("xyz") (by decide)
  · exact parse_frequency_spec.2.2.2.2.2.2 ("30s") 30 (by decide) (by decide) 5 7 0

/-- C6 counterexample: `"0.5s"` is a valid frequency string — the parser
accepts it with total `int(0.5) = 0` — yet the description of 0 is
`"0 seconds"`, i.e. the component list contains the zero-count component
`(0, 1)` instead of omitting it, refuting the claim that components with a
zero count are always omitted for every valid input. -/
theorem format_round_trip_zero_cex :
    parse_frequency ("0.5s") = some 0 ∧
    formatComponents 0 = [(0, 1)] ∧
    ¬ (∀ p ∈ formatComponents 0, 1 ≤ p.1) := by decide

/-- C6 (amended): for every valid frequency string whose parsed total is at
least one second, the components of `format_frequency` appear in the fixed
order year, month, week, day, hour, minute, second, every component has a
nonzero count, and the unit values of the components sum back to exactly the
parsed total. -/
theorem format_round_trip_amended (s : String) (n : Nat)
    (hp : parse_frequency s = some n) (hn : 1 ≤ n) :
    ((formatComponents n).map Prod.snd).Sublist
      [31556952, 2629746, 604800, 86400, 3600, 60, 1] ∧
    (∀ p ∈ formatComponents n, 1 ≤ p.1) ∧
    ((formatComponents n).map (fun p => p.1 * p.2)).sum = n := by
  clear hp
  by_cases h : n < 60
  · refine ⟨?_, ?_, ?_⟩
    · simp only [formatComponents, if_pos h, List.map_cons, List.map_nil]
      exact List.singleton_sublist.mpr (by decide)
    · simp only [formatComponents, if_pos h, List.mem_singleton]
      rintro p rfl
      exact hn
    · simp [formatComponents, if_pos h]
  · have hunits : ffUnits.map (fun p => p.1) =
        [31556952, 2629746, 604800, 86400, 3600, 60, 1] := by decide
    refine ⟨?_, ?_, ?_⟩
    · simp only [formatComponents, if_neg h, List.map_map]
      rw [← hunits]
      exact ffLoop_units_sublist ffUnits n
    · simp only [formatComponents, if_neg h]
      intro p hp'
      rcases List.mem_map.mp hp' with ⟨q, hq, rfl⟩
      exact ffLoop_counts_pos ffUnits n (by decide) q hq
    · simp only [formatComponents, if_neg h, List.map_map]
      have h1 := ffLoop_sum_add_rem ffUnits n
      rw [ffRem_ffUnits, Nat.add_zero] at h1
      simpa [Function.comp] using h1

/-- C6 witness: the amended round-trip evaluated at `"90s"`. -/
theorem format_round_trip_amended_witness :
    ((formatComponents 90).map (fun p => p.1 * p.2)).sum = 90 ∧
    (∀ p ∈ formatComponents 90, 1 ≤ p.1) := by
  have h := format_round_trip_amended ("90s") 90 (by decide) (by decide)
  exact ⟨h.2.2, h.2.1⟩

/-- One loop pass appended to a run. -/
theorem smRun_snoc (row : SMRow) (ts : List ℚ) (t : ℚ) :
    smRun row (ts ++ [t]) =
      ((smTick (smRun row ts).1 t).1,
       (smRun row ts).2 + (smTick (smRun row ts).1 t).2) := by
  unfold smRun
  rw [List.foldl_append]
  rfl

/-- A due pass on an active row sends once and advances `next_send_time` to
`current_time + frequency`. -/
theorem smTick_due (row : SMRow) (c : ℚ) (hact : row.is_active = true)
    (hle : row.next_send_time ≤ c) :
    smTick row c = ({ row with next_send_time := c + (row.frequency_seconds : ℚ) }, 1) := by
  simp only [smTick, if_pos (And.intro hact hle)]

/-- A pass strictly before `next_send_time` sends nothing and changes
nothing. -/
theorem smTick_early (row : SMRow) (c : ℚ) (hc : c < row.next_send_time) :
    smTick row c = (row, 0) := by
  have hcond : ¬ (row.is_active = true ∧ row.next_send_time ≤ c) := by
    rintro ⟨-, hle⟩
    exact absurd hc (not_lt.mpr hle)
  simp only [smTick, if_neg hcond]

/-- C4: for an active scheduled message with frequency 60 created at `t0`
(`next_send_time = t0 + 60`), loop passes at `t0 + 60, t0 + 120, ...` each
send exactly once and set `next_send_time` exactly 60 seconds further, with
no drift across repeated cycles; a pass strictly before `next_send_time`
sends nothing and changes nothing, and a due pass sends exactly once,
advancing `next_send_time` to `current_time + frequency`. -/
theorem scheduled_send_no_drift :
    (∀ t0 : ℚ, ∀ k : Nat,
      smRun { frequency_seconds := 60, next_send_time := t0 + 60, is_active := true }
          ((List.range k).map (fun j : Nat => t0 + 60 * ((j : ℚ) + 1))) =
        ({ frequency_seconds := 60, next_send_time := t0 + 60 * (k : ℚ) + 60,
           is_active := true }, k)) ∧
    (∀ row : SMRow, ∀ c : ℚ, c < row.next_send_time → smTick row c = (row, 0)) ∧
    (∀ row : SMRow, ∀ c : ℚ, row.is_active = true → row.next_send_time ≤ c →
      smTick row c =
        ({ row with next_send_time := c + (row.frequency_seconds : ℚ) }, 1)) := by
  refine ⟨?_, smTick_early, smTick_due⟩
  intro t0 k
  induction k with
  | zero =>
    simp [smRun]
  | succ m ih =>
    have happ : (List.range (m + 1)).map (fun j : Nat => t0 + 60 * ((j : ℚ) + 1)) =
        (List.range m).map (fun j : Nat => t0 + 60 * ((j : ℚ) + 1)) ++
          [t0 + 60 * ((m : ℚ) + 1)] := by
      rw [List.range_succ, List.map_append, List.map_cons, List.map_nil]
    rw [happ, smRun_snoc, ih]
    rw [smTick_due _ _ rfl (le_of_eq (by ring))]
    simp only [Prod.mk.injEq, SMRow.mk.injEq]
    refine ⟨⟨trivial, ?_, trivial⟩, trivial⟩
    push_cast
    ring

/-- C4 witness: the side conjuncts with hypotheses evaluated at concrete
rows. -/
theorem scheduled_send_no_drift_witness :
    smTick { frequency_seconds := 60, next_send_time := 5, is_active := true } 0 =
      ({ frequency_seconds := 60, next_send_time := 5, is_active := true }, 0) ∧
    smTick { frequency_seconds := 60, next_send_time := 5, is_active := true } 5 =
      ({ frequency_seconds := 60, next_send_time := 5 + (60 : ℚ), is_active := true }, 1) := by
  constructor
  · exact scheduled_send_no_drift.2.1
      { frequency_seconds := 60, next_send_time := 5, is_active := true } 0 (by norm_num)
  · have h := scheduled_send_no_drift.2.2
      { frequency_seconds := 60, next_send_time := 5, is_active := true } 5 rfl (by norm_num)
    simpa using h

/-- C7 counterexample: for a panel whose live message (id 5) is missing, the
first repair sends message 100 and records it; the second repair deletes
message 100, sends message 101 and records that — so the database/cache state
after two invocations differs from the state after one, refuting the claimed
state identity. -/
theorem sticky_repair_state_differs :
    (update_sticky_message
      { channelMsgs := [], nextMsgId := 100, dbLast := some 5, cacheLast := some 5 }).dbLast =
        some 100 ∧
    (update_sticky_message (update_sticky_message
      { channelMsgs := [], nextMsgId := 100, dbLast := some 5, cacheLast := some 5 })).dbLast =
        some 101 ∧
    update_sticky_message (update_sticky_message
      { channelMsgs := [], nextMsgId := 100, dbLast := some 5, cacheLast := some 5 }) ≠
      update_sticky_message
        { channelMsgs := [], nextMsgId := 100, dbLast := some 5, cacheLast := some 5 } := by
  decide

/-- C7 (amended): for a panel whose recorded live message is missing from its
channel, one repair invocation creates exactly one new live message and
points both the database row and the cache at it, and a second invocation in
succession deletes that message and creates exactly one replacement — after
either one or two invocations the channel holds exactly one live sticky
message, the database and cache agree on its id, and no step crashes; only
the id of the current message differs between the two runs. -/
theorem sticky_repair_twice_amended (w : StickyWorld) (m : Nat)
    (hdb : w.dbLast = some m) (hmiss : m ∉ w.channelMsgs)
    (hfresh : ∀ x ∈ w.channelMsgs, x < w.nextMsgId) :
    update_sticky_message w =
      { channelMsgs := w.channelMsgs ++ [w.nextMsgId], nextMsgId := w.nextMsgId + 1,
        dbLast := some w.nextMsgId, cacheLast := some w.nextMsgId } ∧
    update_sticky_message (update_sticky_message w) =
      { channelMsgs := w.channelMsgs ++ [w.nextMsgId + 1], nextMsgId := w.nextMsgId + 2,
        dbLast := some (w.nextMsgId + 1), cacheLast := some (w.nextMsgId + 1) } := by
  have h1 : update_sticky_message w =
      { channelMsgs := w.channelMsgs ++ [w.nextMsgId], nextMsgId := w.nextMsgId + 1,
        dbLast := some w.nextMsgId, cacheLast := some w.nextMsgId } := by
    unfold update_sticky_message
    simp only [hdb, if_neg hmiss]
  refine ⟨h1, ?_⟩
  rw [h1]
  unfold update_sticky_message
  have hmem : w.nextMsgId ∈ w.channelMsgs ++ [w.nextMsgId] := by simp
  have hnotin : w.nextMsgId ∉ w.channelMsgs := fun hx =>
    absurd (hfresh _ hx) (lt_irrefl _)
  have herase : (w.channelMsgs ++ [w.nextMsgId]).erase w.nextMsgId = w.channelMsgs := by
    rw [List.erase_append_right _ hnotin, List.erase_cons_head, List.append_nil]
  simp only [if_pos hmem, herase]

/-- C7 witness: the amended repair behaviour at a concrete panel. -/
theorem sticky_repair_twice_amended_witness :
    update_sticky_message
        { channelMsgs := [3], nextMsgId := 10, dbLast := some 7, cacheLast := some 7 } =
      { channelMsgs := [3, 10], nextMsgId := 11, dbLast := some 10, cacheLast := some 10 } ∧
    update_sticky_message (update_sticky_message
        { channelMsgs := [3], nextMsgId := 10, dbLast := some 7, cacheLast := some 7 }) =
      { channelMsgs := [3, 11], nextMsgId := 12, dbLast := some 11, cacheLast := some 11 } := by
  have h := sticky_repair_twice_amended
    { channelMsgs := [3], nextMsgId := 10, dbLast := some 7, cacheLast := some 7 }
    7 rfl (by decide) (by decide)
  exact ⟨h.1, h.2⟩

/-- C10: a successful push-alert submission (both stripped fields nonempty,
no statement failing) leaves exactly one alert row — the new alert with
read_count 0 — and an empty alert_reads table, the prior alert and all its
receipts having been deleted in the same transaction; if any of the three
statements fails, the transaction rolls back and both tables are left
unchanged. -/
theorem push_alert_txn (db : AlertDB) (t d : String) (now : Nat)
    (ht : ¬ pyStrip t = ("")) (hd : ¬ pyStrip d = ("")) :
    pushAlertOnSubmit db t d now none = PushOutcome.pushed
      { nextAlertId := db.nextAlertId + 1,
        alerts := [{ id := db.nextAlertId, title := pyStrip t,
                     description := pyStrip d, created_at := now, read_count := 0 }],
        alert_reads := [] } ∧
    (∀ i : Nat, i < 3 → pushAlertOnSubmit db t d now (some i) =
      PushOutcome.failed db) := by
  constructor
  · simp [pushAlertOnSubmit, runPushAlertTxn, pushAlertTxnStatements, ht, hd]
  · intro i hi
    simp [pushAlertOnSubmit, runPushAlertTxn, pushAlertTxnStatements, ht, hd, hi]

/-- C10 witness: the transaction evaluated on a concrete database holding a
prior alert and a receipt. -/
theorem push_alert_txn_witness :
    pushAlertOnSubmit
        { nextAlertId := 4,
          alerts := [{ id := 3, title := ("a"), description := ("b"),
                       created_at := 1, read_count := 2 }],
          alert_reads := [(3, 9, 1)] } (" hi ") ("yo") 7 none =
      PushOutcome.pushed
        { nextAlertId := 5,
          alerts := [{ id := 4, title := ("hi"), description := ("yo"),
                       created_at := 7, read_count := 0 }],
          alert_reads := [] } ∧
    pushAlertOnSubmit
        { nextAlertId := 4,
          alerts := [{ id := 3, title := ("a"), description := ("b"),
                       created_at := 1, read_count := 2 }],
          alert_reads := [(3, 9, 1)] } (" hi ") ("yo") 7 (some 1) =
      PushOutcome.failed
        { nextAlertId := 4,
          alerts := [{ id := 3, title := ("a"), description := ("b"),
                       created_at := 1, read_count := 2 }],
          alert_reads := [(3, 9, 1)] } := by
  have h := push_alert_txn
    { nextAlertId := 4,
      alerts := [{ id := 3, title := ("a"), description := ("b"),
                   created_at := 1, read_count := 2 }],
      alert_reads := [(3, 9, 1)] } (" hi ") ("yo") 7 (by decide) (by decide)
  exact ⟨h.1, h.2 1 (by decide)⟩

/-- C2: two concurrent `get_next_message_id` invocations for the same guild
that both miss the cache race to the database: in the interleaving where both
pass the cache check before either caches its result, both read
`MAX(message_id) = 0` from the (unchanged) table and both return message id
1 — the same id twice, refuting uniqueness; no lock or transaction guards the
read-compute-cache sequence. -/
theorem next_message_id_race :
    ((gnRun { table := [], cache := none }
        [{ pc := GNPc.queryCache, maxId := 0, ret := none },
         { pc := GNPc.queryCache, maxId := 0, ret := none }]
        [(0, 0), (1, 0), (0, 0), (0, 0), (1, 0), (1, 0)]).2.map GNTask.ret) =
      [some 1, some 1] := by decide

/-- C9: with every pooled connection checked out, a waiter that enters
`__aenter__` takes `_db_pool_lock` and spins on `asyncio.sleep(0)` without
releasing it; from that configuration no schedule ever lets the holder's
`__aexit__` (which needs the same lock) append its connection back — the
release never completes and the waiter never obtains a connection, refuting
the claim that a holder's release can always complete while callers wait. -/
theorem db_pool_release_deadlock :
    relStep { pool := 0, waiter := WaiterPc.wAcquire, releaseDone := false } true =
      { pool := 0, waiter := WaiterPc.wSpin, releaseDone := false } ∧
    (∀ sched : List Bool,
      relRun { pool := 0, waiter := WaiterPc.wSpin, releaseDone := false } sched =
        { pool := 0, waiter := WaiterPc.wSpin, releaseDone := false }) := by
  constructor
  · rfl
  · intro sched
    induction sched with
    | nil => rfl
    | cons b rest ih =>
      have hstep : relStep { pool := 0, waiter := WaiterPc.wSpin, releaseDone := false } b =
          { pool := 0, waiter := WaiterPc.wSpin, releaseDone := false } := by
        cases b <;> rfl
      show relRun (relStep { pool := 0, waiter := WaiterPc.wSpin, releaseDone := false } b)
        rest = _
      rw [hstep]
      exact ih

/-- Every atomic segment of the `/alert` machine preserves the invariant. -/
theorem AInv_astep (cfg : AState × List ATask) (i : Nat) (now : Nat)
    (h : AInv cfg) : AInv (astep cfg i now) := by
  obtain ⟨hrc, hnd, hpos, hcache, htasks⟩ := h
  cases hget : cfg.2.get? i with
  | none =>
    simp only [astep, hget]
    exact ⟨hrc, hnd, hpos, hcache, htasks⟩
  | some t =>
    have htmem : t ∈ cfg.2 := List.get?_mem hget
    cases hpc : t.pc with
    | start =>
      cases hfind : (cleanup_position_cache cfg.1.cache now).find?
          (fun e => e.1 == t.user) with
      | some e =>
        have hecache : e ∈ cfg.1.cache :=
          cleanup_position_cache_subset cfg.1.cache now e
            (List.mem_of_find?_eq_some hfind)
        have heu : e.1 = t.user := by
          have := List.find?_some hfind
          simpa using this
        have hread : (t.user, e.2.1) ∈ cfg.1.reads := heu ▸ hcache e hecache
        simp only [astep, hget, hpc, hfind]
        refine ⟨hrc, hnd, hpos, ?_, ?_⟩
        · intro e' he'
          exact hcache e' (cleanup_position_cache_subset cfg.1.cache now e' he')
        · intro t'' ht'' p hp
          rcases List.mem_or_eq_of_mem_set ht'' with hold | hnew
          · exact htasks t'' hold p hp
          · subst hnew
            simp only at hp
            rcases hp with h' | h'
            · cases h'
            · cases h'
              exact hread
      | none =>
        simp only [astep, hget, hpc, hfind]
        refine ⟨hrc, hnd, hpos, ?_, ?_⟩
        · intro e' he'
          exact hcache e' (cleanup_position_cache_subset cfg.1.cache now e' he')
        · intro t'' ht'' p hp
          rcases List.mem_or_eq_of_mem_set ht'' with hold | hnew
          · exact htasks t'' hold p hp
          · subst hnew
            simp only at hp
            rcases hp with h' | h' <;> cases h'
    | inTxn =>
      cases hfind : cfg.1.reads.find? (fun r => r.1 == t.user) with
      | some r =>
        have hrmem : r ∈ cfg.1.reads := List.mem_of_find?_eq_some hfind
        have hru : r.1 = t.user := by
          have := List.find?_some hfind
          simpa using this
        have hread : (t.user, r.2) ∈ cfg.1.reads := by
          rw [← hru]
          simpa using hrmem
        simp only [astep, hget, hpc, hfind]
        refine ⟨hrc, hnd, hpos, hcache, ?_⟩
        intro t'' ht'' p hp
        rcases List.mem_or_eq_of_mem_set ht'' with hold | hnew
        · exact htasks t'' hold p hp
        · subst hnew
          simp only at hp
          rcases hp with h' | h'
          · cases h'
            exact hread
          · cases h'
      | none =>
        have hnotin : t.user ∉ cfg.1.reads.map Prod.fst := by
          intro hin
          rcases List.mem_map.mp hin with ⟨x, hx, hxu⟩
          have := List.find?_eq_none.mp hfind x hx
          simp [hxu] at this
        simp only [astep, hget, hpc, hfind]
        refine ⟨?_, ?_, ?_, ?_, ?_⟩
        · simp [hrc]
        · simp only [List.map_append, List.map_cons, List.map_nil]
          rw [List.nodup_append]
          refine ⟨hnd, List.nodup_singleton _, ?_⟩
          intro a ha hb
          rcases List.mem_singleton.mp hb with rfl
          exact hnotin ha
        · simp only [List.map_append, List.map_cons, List.map_nil,
            List.length_append, List.length_cons, List.length_nil]
          rw [hpos, hrc, List.range'_1_concat]
          simp [Nat.add_comm]
        · intro e' he'
          exact List.mem_append_left _ (hcache e' he')
        · intro t'' ht'' p hp
          rcases List.mem_or_eq_of_mem_set ht'' with hold | hnew
          · exact List.mem_append_left _ (htasks t'' hold p hp)
          · subst hnew
            simp only at hp
            have hgoal : (t.user, cfg.1.readCount + 1) ∈
                cfg.1.reads ++ [(t.user, cfg.1.readCount + 1)] :=
              List.mem_append_right _ (List.mem_singleton.mpr rfl)
            rcases hp with h' | h'
            · cases h'
              exact hgoal
            · cases h'
    | writeCache p0 =>
      have hread : (t.user, p0) ∈ cfg.1.reads :=
        htasks t htmem p0 (Or.inl hpc)
      simp only [astep, hget, hpc]
      refine ⟨hrc, hnd, hpos, ?_, ?_⟩
      · intro e' he'
        rcases List.mem_cons.mp he' with rfl | he''
        · exact hread
        · exact hcache e' (List.mem_of_mem_filter he'')
      · intro t'' ht'' p hp
        rcases List.mem_or_eq_of_mem_set ht'' with hold | hnew
        · exact htasks t'' hold p hp
        · subst hnew
          simp only at hp
          rcases hp with h' | h'
          · cases h'
          · cases h'
            exact hread
    | done p0 =>
      simp only [astep, hget, hpc]
      exact ⟨hrc, hnd, hpos, hcache, htasks⟩

/-- C1: across any interleaving of `/alert` invocations starting from a fresh
alert, the alert_reads rows have pairwise-distinct users, their positions are
exactly 1, 2, ..., read_count with no duplicate and no skipped position,
read_count always equals the number of rows (so each inserted position equals
read_count immediately after the transactional increment, the count of
distinct readers at assignment time), and every completed invocation's user
has exactly one row, holding the position that invocation reported. -/
theorem alert_read_positions (users : List Nat) (sched : List (Nat × Nat)) :
    ((arun users sched).1.reads.map Prod.fst).Nodup ∧
    (arun users sched).1.readCount = (arun users sched).1.reads.length ∧
    (arun users sched).1.reads.map Prod.snd =
      List.range' 1 (arun users sched).1.reads.length ∧
    (∀ t ∈ (arun users sched).2, ∀ p : Nat, t.pc = APc.done p →
      (t.user, p) ∈ (arun users sched).1.reads ∧
      ((arun users sched).1.reads.filter (fun r => r.1 == t.user)).length = 1) := by
  have hrun : ∀ rest : List (Nat × Nat), ∀ cfg : AState × List ATask, AInv cfg →
      AInv (rest.foldl (fun cfg st => astep cfg st.1 st.2) cfg) := by
    intro rest
    induction rest with
    | nil => intro cfg h; exact h
    | cons st tail ih => intro cfg h; exact ih _ (AInv_astep _ _ _ h)
  have hinit : AInv ({ readCount := 0, reads := [], cache := [] },
      users.map (fun u => { user := u, pc := APc.start, tnow := 0 })) := by
    refine ⟨rfl, List.nodup_nil, rfl, ?_, ?_⟩
    · intro e he
      cases he
    · intro t ht p hp
      rcases List.mem_map.mp ht with ⟨u, -, rfl⟩
      simp only at hp
      rcases hp with h' | h' <;> cases h'
  have hinv : AInv (arun users sched) := hrun sched _ hinit
  obtain ⟨hrc, hnd, hpos, hcache, htasks⟩ := hinv
  refine ⟨hnd, hrc, hpos, ?_⟩
  intro t ht p hp
  have hmem := htasks t ht p (Or.inr hp)
  exact ⟨hmem, filter_key_length_one hnd hmem⟩

/-- C1 witness: a single completed invocation by user 5 yields exactly the
row (5, 1). -/
theorem alert_read_positions_witness :
    ((5 : Nat), (1 : Nat)) ∈ (arun [5] [(0, 0), (0, 0), (0, 0)]).1.reads ∧
    ((arun [5] [(0, 0), (0, 0), (0, 0)]).1.reads.filter
      (fun r => r.1 == (5 : Nat))).length = 1 := by
  have h := (alert_read_positions [5] [(0, 0), (0, 0), (0, 0)]).2.2.2
    { user := 5, pc := APc.done 1, tnow := 0 } (by decide) 1 rfl
  exact ⟨h.1, h.2⟩

end Dopamine
